import Mathlib

/-
Verification of the `val` Go package (kaudit/val): a thread-safe validation
facade over the go-playground/validator rule engine, with three custom
predicates (`url_prefix`, `k8s_label_selector`, `k8s_field_selector`).

Strings are embedded as `List Char` (Go iterates runes; all characters
relevant to the predicates are ASCII, where byte- and rune-level operations
of the Go standard library coincide).
-/

/-- Strings of the embedded program, as lists of characters. -/
abbrev Str := List Char

/-- Go `strings.HasPrefix s p` : `s` starts with `p`. -/
def hasPre : Str → Str → Bool
  | _, [] => true
  | [], _ :: _ => false
  | c :: cs, p :: ps => c = p && hasPre cs ps

/-- Go `strings.Contains s sub` : some suffix of `s` starts with `sub`. -/
def containsSub : Str → Str → Bool
  | [], sub => hasPre [] sub
  | c :: rest, sub => hasPre (c :: rest) sub || containsSub rest sub

/-- Go `strings.SplitN s sep 2` first component: the part of `s` before the
first occurrence of `sep` (all of `s` when `sep` does not occur). -/
def beforeFirst : Str → Str → Str
  | [], _ => []
  | c :: rest, sep => if hasPre (c :: rest) sep then [] else c :: beforeFirst rest sep

/-- ASCII whitespace recognized by Go `unicode.IsSpace` (the inputs under
study contain no non-ASCII space characters). -/
def isSpaceChar (c : Char) : Bool :=
  c = ' ' || c = '\t' || c = '\n' || c = '\x0b' || c = '\x0c' || c = '\r'

/-- Go `strings.TrimSpace` restricted to ASCII whitespace. -/
def trimSpace (s : Str) : Str :=
  ((s.dropWhile isSpaceChar).reverse.dropWhile isSpaceChar).reverse

/-- Accumulator pass of `splitOnComma`. -/
def splitOnCommaAux : Str → Str → List Str
  | [], acc => [acc.reverse]
  | c :: rest, acc =>
    if c = ',' then acc.reverse :: splitOnCommaAux rest []
    else splitOnCommaAux rest (c :: acc)

/-- Go `strings.Split s ","` : splits at every comma; yields `[[]]` on the
empty string, and an empty trailing segment after a trailing comma. -/
def splitOnComma (s : Str) : List Str :=
  splitOnCommaAux s []

/-
Model of the external field-selector grammar checker
`k8s.io/apimachinery/pkg/fields.ParseSelector`, translated from the upstream
library source (`fields/selector.go`): `splitTerms` splits on unescaped
commas, `splitTerm` splits a term at the first `!=` / `==` / `=`, and
`UnescapeValue` accepts only the escapes `\\`, `\,`, `\=` in values and
rejects unescaped `,` or `=`. Upstream sorts the term list before parsing;
the sort only permutes requirements and cannot change acceptance, so it is
omitted here.
-/

/-- Accumulator pass of `splitTerms`; the `Bool` is the `inSlash` state. -/
def splitTermsAux : Str → Bool → Str → List Str
  | [], _, acc => [acc.reverse]
  | c :: rest, inSlash, acc =>
    if inSlash then splitTermsAux rest false (c :: acc)
    else if c = '\\' then splitTermsAux rest true (c :: acc)
    else if c = ',' then acc.reverse :: splitTermsAux rest false []
    else splitTermsAux rest false (c :: acc)

/-- Upstream `splitTerms`: comma-separated terms of a field selector, where
backslash-escaped commas are data (kept, with the backslash) rather than
delimiters; the empty selector yields no terms. -/
def splitTerms (s : Str) : List Str :=
  if s = [] then [] else splitTermsAux s false []

/-- Operators recognized by the field-selector grammar: `!=`, `==`, `=`. -/
inductive FOp where
  | neq
  | deq
  | eq
deriving DecidableEq

/-- Scanning pass of `splitTerm`: at each position try `!=`, then `==`,
then `=` (upstream `termOperators` order). -/
def splitTermAux : Str → Str → Option (Str × FOp × Str)
  | [], _ => none
  | c :: rest, acc =>
    if hasPre (c :: rest) ['!', '='] then some (acc.reverse, FOp.neq, rest.drop 1)
    else if hasPre (c :: rest) ['=', '='] then some (acc.reverse, FOp.deq, rest.drop 1)
    else if c = '=' then some (acc.reverse, FOp.eq, rest)
    else splitTermAux rest (c :: acc)

/-- Upstream `splitTerm`: lhs, operator and rhs of one term, split at the
first occurrence of a recognized operator; `none` when no operator occurs. -/
def splitTerm (term : Str) : Option (Str × FOp × Str) :=
  splitTermAux term []

/-- Accumulator pass of `unescapeValue`; the `Bool` is the `inSlash` state. -/
def unescapeAux : Str → Bool → Str → Option Str
  | [], true, _ => none
  | [], false, acc => some acc.reverse
  | c :: rest, true, acc =>
    if c = '\\' || c = ',' || c = '=' then unescapeAux rest false (c :: acc) else none
  | c :: rest, false, acc =>
    if c = '\\' then unescapeAux rest true acc
    else if c = ',' || c = '=' then none
    else unescapeAux rest false (c :: acc)

/-- Upstream `UnescapeValue`: unescapes a field-selector value; fails on an
unrecognized escape sequence, a trailing backslash, or an unescaped `,`/`=`.
(The upstream fast path for values without `\`, `,`, `=` returns the value
unchanged, which the general loop also does.) -/
def unescapeValue (s : Str) : Option Str :=
  unescapeAux s false []

/-- One grammar-level requirement: key, operator, unescaped value. -/
abbrev FieldReq := Str × FOp × Str

/-- Per-term loop of upstream `parseSelector`: empty terms are skipped; a
term with no recognized operator, or whose value fails unescaping, is an
error (`none`). -/
def parseSelectorAux : List Str → Option (List FieldReq)
  | [] => some []
  | part :: rest =>
    if part = [] then parseSelectorAux rest
    else
      match splitTerm part with
      | none => none
      | some (lhs, op, rhs) =>
        match unescapeValue rhs with
        | none => none
        | some v =>
          match parseSelectorAux rest with
          | none => none
          | some reqs => some ((lhs, op, v) :: reqs)

/-- Model of `fields.ParseSelector`: the list of requirements of a field
selector, or `none` on a syntax error. -/
def parseSelector (s : Str) : Option (List FieldReq) :=
  parseSelectorAux (splitTerms s)

/-
The `val` package itself (`validators.go` and `val.go`).
-/

/-- Allowed field keys of the `k8s_field_selector` predicate
(`allowedFieldKeys` map in `fieldSelectorValidator`). -/
def allowedFieldKeys : List Str :=
  ["metadata.name".toList, "metadata.namespace".toList, "status.phase".toList,
   "spec.nodeName".toList, "spec.unschedulable".toList, "status.hostIP".toList,
   "status.podIP".toList]

/-- Membership test in the allowed-key map. -/
def keyAllowed (k : Str) : Bool :=
  allowedFieldKeys.contains k

/-- Key extraction of the `k8s_field_selector` predicate: the part of a
requirement before the first `!=` when the requirement contains `!=`, else
before the first `=` when it contains `=`, else failure (the `switch` at
lines 84–91 of the validator source). -/
def extractKey (r : Str) : Option Str :=
  if containsSub r ['!', '='] then some (beforeFirst r ['!', '='])
  else if containsSub r ['='] then some (beforeFirst r ['='])
  else none

/-- Per-segment check of the `k8s_field_selector` loop body: trim the
segment, extract its key, trim the key, and test the allow-list. -/
def segmentOk (r : Str) : Bool :=
  match extractKey (trimSpace r) with
  | none => false
  | some key => keyAllowed (trimSpace key)

/-- The `k8s_field_selector` predicate: reject the empty string, reject
strings the grammar checker rejects, then split the raw string on `,` and
require every segment to pass the key check. -/
def fieldSelectorValidator (value : Str) : Bool :=
  if value = [] then false
  else if (parseSelector value).isNone then false
  else (splitOnComma value).all segmentOk

/-- The `k8s_label_selector` predicate, parametrized by the external label
grammar checker `labels.Parse` (`labelParses s` stands for
`labels.Parse s` succeeding): reject the empty string, otherwise delegate. -/
def labelSelectorValidator (labelParses : Str → Bool) (value : Str) : Bool :=
  if value = [] then false
  else labelParses value

/-- The `url_prefix` predicate: the value starts with `http://` or
`https://`. -/
def urlPrefixValidator (value : Str) : Bool :=
  hasPre value "http://".toList || hasPre value "https://".toList

/-
The validation facade (`val.go`). The rule engine
(go-playground/validator) is external: validation calls are parametrized by
the engine's outcome, and its structured failures are embedded as
`EngineError`.
-/

/-- Shape of a Go value as seen by `validateInputStruct`'s reflection:
the untyped nil interface, a typed nil pointer, a non-nil pointer, or any
non-pointer value. -/
inductive GoValue where
  | nilInterface
  | typedNilPtr
  | nonNilPtr
  | nonPtrValue
deriving DecidableEq

/-- One field-level failure reported by the rule engine
(`validator.FieldError`): struct namespace and field name (empty for bare
values), the failing tag and its parameter, the `%s` rendering of the value
(`none` when the value is nil), and the rendering of its type. -/
structure GoFieldError where
  structNamespace : Str
  structFieldName : Str
  actualTag : Str
  param : Str
  valueStr : Option Str
  typeStr : Str

/-- An error returned by the rule engine: either a structured
`validator.ValidationErrors` list, or any other error with its message. -/
inductive EngineError where
  | invalid (errs : List GoFieldError)
  | other (msg : Str)

/-- Message built for one field error by the loop body of
`handleValidatorError`: `<StructPath> (<tag>=<param>)` when the field has a
name, `nil value (<tag>=<param>)` for a nil value, and
`<kind> <value> (<tag>=<param>)` otherwise. -/
def describeFieldError (fe : GoFieldError) : Str :=
  if fe.structFieldName ≠ [] then
    fe.structNamespace ++ " (".toList ++ fe.actualTag ++ "=".toList ++ fe.param ++ ")".toList
  else
    match fe.valueStr with
    | none => "nil value (".toList ++ fe.actualTag ++ "=".toList ++ fe.param ++ ")".toList
    | some v =>
      fe.typeStr ++ " ".toList ++ v ++ " (".toList ++ fe.actualTag ++ "=".toList
        ++ fe.param ++ ")".toList

/-- Go `strings.Join msgs ", "`. -/
def joinCommaSp : List Str → Str
  | [] => []
  | [m] => m
  | m :: rest => m ++ ", ".toList ++ joinCommaSp rest

/-- The facade's `handleValidatorError`: structured failures become one
combined message prefixed `validation failed: `; any other engine error is
wrapped with the prefix `unexpected validation error: `. -/
def handleValidatorError : EngineError → Str
  | EngineError.invalid errs =>
    "validation failed: ".toList ++ joinCommaSp (errs.map describeFieldError)
  | EngineError.other msg => "unexpected validation error: ".toList ++ msg

/-- The facade's `validateInputStruct`: rejects the nil interface and the
typed nil pointer, accepts everything else. -/
def validateInputStruct : GoValue → Option Str
  | GoValue.nilInterface => some "input is nil".toList
  | GoValue.typedNilPtr => some "input is a nil pointer".toList
  | GoValue.nonNilPtr => none
  | GoValue.nonPtrValue => none

/-- The facade's `ValidateStruct`, parametrized by the engine's
`Struct` call (`engine s` is the error `v.Struct(s)` returns, if any):
guard the input shape, then run the engine and format its error. -/
def ValidateStruct (engine : GoValue → Option EngineError) (s : GoValue) : Option Str :=
  match validateInputStruct s with
  | some e => some e
  | none =>
    match engine s with
    | some err => some (handleValidatorError err)
    | none => none

/-- The facade's `ValidateWithTag`, parametrized by the engine's `Var` call
(`engine value tag` is the error `v.Var(variable, tag)` returns, if any): no
input-shape guard, just the engine call and error formatting. -/
def ValidateWithTag (engine : GoValue → Str → Option EngineError) (varb : GoValue)
    (tag : Str) : Option Str :=
  match engine varb tag with
  | some err => some (handleValidatorError err)
  | none => none

/-- Registration behavior of the external rule engine
(`(*validator.Validate).RegisterValidation`), modelled from the
go-playground/validator library as exercised by the repository's tests: an
empty tag yields the error `function Key cannot be empty`, a nil predicate
yields `function cannot be empty`, otherwise registration succeeds.
`fnPresent` is false exactly when the Go function argument is nil. -/
def engineRegisterValidation (tag : Str) (fnPresent : Bool) : Option Str :=
  if tag = [] then some "function Key cannot be empty".toList
  else if fnPresent = false then some "function cannot be empty".toList
  else none

/-- The facade's `RegisterValidation`: takes the lock and returns the
engine's result unmodified. -/
def RegisterValidation (tag : Str) (fnPresent : Bool) : Option Str :=
  engineRegisterValidation tag fnPresent

/-
Helper lemmas.
-/

/-- Characterization of Go `strings.HasPrefix`: `hasPre s p` holds exactly
when `s` is `p` followed by some tail. -/
theorem hasPre_iff (s p : Str) : hasPre s p = true ↔ ∃ t, s = p ++ t := by
  induction p generalizing s with
  | nil =>
    cases s <;> simp [hasPre]
  | cons ph pt ih =>
    cases s with
    | nil => simp [hasPre]
    | cons c cs =>
      rw [show hasPre (c :: cs) (ph :: pt) = (decide (c = ph) && hasPre cs pt) from rfl]
      rw [Bool.and_eq_true, decide_eq_true_iff, ih]
      constructor
      · rintro ⟨hc, t, ht⟩
        exact ⟨t, by simp [hc, ht]⟩
      · rintro ⟨t, ht⟩
        rw [List.cons_append] at ht
        injection ht with h1 h2
        exact ⟨h1, t, h2⟩

/-- Unfolding of the field-selector predicate into its three conditions:
nonemptiness, grammar acceptance, and the per-segment key check over the
naive comma split. -/
theorem fieldSelectorValidator_iff (s : Str) :
    fieldSelectorValidator s = true ↔
      s ≠ [] ∧ (parseSelector s).isSome = true ∧
        ∀ r ∈ splitOnComma s, segmentOk r = true := by
  unfold fieldSelectorValidator
  by_cases h1 : s = []
  · simp [h1]
  · rw [if_neg h1]
    cases hp : parseSelector s with
    | none => simp [hp, h1]
    | some reqs => simp [hp, h1, List.all_eq_true]

/-- Every message built by `handleValidatorError` starts with `v` (the
`validation failed: ` prefix) or `u` (the `unexpected validation error: `
prefix). -/
theorem handleValidatorError_head (e : EngineError) :
    ∃ c t, handleValidatorError e = c :: t ∧ (c = 'v' ∨ c = 'u') := by
  cases e with
  | invalid errs => exact ⟨'v', _, rfl, Or.inl rfl⟩
  | other msg => exact ⟨'u', _, rfl, Or.inr rfl⟩

/-
Claims C3, C4, C5.
-/

/-- C3: the Allowed Field Key Set consulted by the field-selector predicate
is exactly {metadata.name, metadata.namespace, status.phase, spec.nodeName,
spec.unschedulable, status.hostIP, status.podIP} and no other key (in
particular not spec.replicas); consequently
`metadata.name=default,status.phase=Running` passes and `spec.replicas=3`
fails. -/
theorem allowedFieldKeySet_exact :
    (∀ k : Str, keyAllowed k = true ↔
      (k = "metadata.name".toList ∨ k = "metadata.namespace".toList ∨
       k = "status.phase".toList ∨ k = "spec.nodeName".toList ∨
       k = "spec.unschedulable".toList ∨ k = "status.hostIP".toList ∨
       k = "status.podIP".toList)) ∧
    keyAllowed "spec.replicas".toList = false ∧
    fieldSelectorValidator "metadata.name=default,status.phase=Running".toList = true ∧
    fieldSelectorValidator "spec.replicas=3".toList = false := by
  refine ⟨fun k => ?_, by decide, by decide, by decide⟩
  rw [show keyAllowed k = allowedFieldKeys.contains k from rfl, List.elem_iff]
  simp [allowedFieldKeys]

/-- C4: the URL-prefix predicate accepts a string exactly when it starts
with the literal `http://` or the literal `https://`, and rejects the empty
string; as a Lean function it is pure and total by construction. -/
theorem urlPrefixValidator_spec :
    (∀ s : Str, urlPrefixValidator s = true ↔
      ((∃ t, s = "http://".toList ++ t) ∨ (∃ t, s = "https://".toList ++ t))) ∧
    urlPrefixValidator [] = false := by
  refine ⟨fun s => ?_, by decide⟩
  unfold urlPrefixValidator
  rw [Bool.or_eq_true, hasPre_iff, hasPre_iff]

/-- C5: the label-selector predicate rejects the empty string, and
otherwise accepts exactly when the label grammar checker accepts; this
holds for an arbitrary grammar checker, so the predicate applies no key
allow-listing of its own. -/
theorem labelSelectorValidator_spec :
    (∀ (labelParses : Str → Bool) (s : Str),
      labelSelectorValidator labelParses s = true ↔ s ≠ [] ∧ labelParses s = true) ∧
    (∀ labelParses : Str → Bool, labelSelectorValidator labelParses [] = false) := by
  constructor
  · intro p s
    unfold labelSelectorValidator
    by_cases h : s = [] <;> simp [h]
  · intro p
    rfl

/-
Claims C1, C2, C9.
-/

/-- C1 (counterexample): `metadata.name=a\,b` is parsed by the grammar
checker as a single requirement whose key `metadata.name` is allowed and
whose operator is `=`, and it is non-empty, yet the predicate rejects it —
so the claimed four-condition characterization fails. -/
theorem fieldSelector_invariant_cex :
    parseSelector "metadata.name=a\\,b".toList =
      some [("metadata.name".toList, FOp.eq, "a,b".toList)] ∧
    keyAllowed "metadata.name".toList = true ∧
    ("metadata.name=a\\,b".toList : Str) ≠ [] ∧
    fieldSelectorValidator "metadata.name=a\\,b".toList = false := by
  decide

/-- C1 (amended): the field-selector predicate accepts exactly the
non-empty strings that the grammar checker accepts and whose segments,
obtained by splitting the raw string at every comma (escaped or not), all
pass the trim/extract-key/allow-list check. -/
theorem fieldSelector_invariant_amended (s : Str) :
    fieldSelectorValidator s = true ↔
      s ≠ [] ∧ (parseSelector s).isSome = true ∧
        ∀ r ∈ splitOnComma s, segmentOk r = true :=
  fieldSelectorValidator_iff s

/-- C2: on inputs passing the syntax pre-check, the predicate is the
conjunction of the per-segment checks over the naive comma split (trim the
segment, take the part before the first `!=`, else before the first `=`),
and any segment with neither delimiter — such as the empty segment behind a
trailing comma — makes the whole predicate false. -/
theorem fieldSelector_segmentation (s : Str) (hp : (parseSelector s).isSome = true) :
    (fieldSelectorValidator s = true ↔ ∀ r ∈ splitOnComma s, segmentOk r = true) ∧
    (∀ r ∈ splitOnComma s, extractKey (trimSpace r) = none →
      fieldSelectorValidator s = false) := by
  constructor
  · rw [fieldSelectorValidator_iff]
    constructor
    · rintro ⟨-, -, h⟩
      exact h
    · intro h
      by_cases he : s = []
      · subst he
        exact absurd (h [] (by decide)) (by decide)
      · exact ⟨he, hp, h⟩
  · intro r hr hnone
    cases hv : fieldSelectorValidator s with
    | false => rfl
    | true =>
      have hseg := ((fieldSelectorValidator_iff s).mp hv).2.2 r hr
      simp [segmentOk, hnone] at hseg

/-- Witness for C2 at the trailing-comma input `metadata.name=default,`:
the pre-check accepts it, its empty trailing segment has no delimiter, and
the predicate returns false. -/
theorem fieldSelector_segmentation_witness :
    fieldSelectorValidator "metadata.name=default,".toList = false :=
  (fieldSelector_segmentation "metadata.name=default,".toList (by decide)).2
    [] (by decide) (by decide)

/-- C9: the escaped-comma value `metadata.name=a\,b` is accepted by the
grammar checker as one requirement with allowed key and `=` operator, but
the naive split on `,` cuts inside the value, leaving a segment with no
`=`/`!=` delimiter, and the predicate returns false. -/
theorem fieldSelector_escapedComma_divergence :
    parseSelector "metadata.name=a\\,b".toList =
      some [("metadata.name".toList, FOp.eq, "a,b".toList)] ∧
    (splitOnComma "metadata.name=a\\,b".toList).any
      (fun r => (extractKey (trimSpace r)).isNone) = true ∧
    fieldSelectorValidator "metadata.name=a\\,b".toList = false := by
  decide

/-
Claims C6, C7, C8, C10.
-/

/-- C6: structured engine failures are formatted per field as
`<StructPath> (<tag>=<param>)` when the field has a name,
`nil value (<tag>=<param>)` when the failing value is nil, and
`<kind> <value> (<tag>=<param>)` for a bare value, comma-joined behind
`validation failed: `; an unrecognized engine error is returned behind
`unexpected validation error: `; and both `ValidateWithTag` and
`ValidateStruct` surface exactly these formatted messages. -/
theorem errorFormatting_spec :
    ∀ (fe : GoFieldError) (errs : List GoFieldError) (msg : Str)
      (engineS : GoValue → Option EngineError)
      (engineV : GoValue → Str → Option EngineError)
      (s varb : GoValue) (tag : Str) (err : EngineError),
      (fe.structFieldName ≠ [] →
        describeFieldError fe =
          fe.structNamespace ++ " (".toList ++ fe.actualTag ++ "=".toList ++ fe.param
            ++ ")".toList) ∧
      (fe.structFieldName = [] → fe.valueStr = none →
        describeFieldError fe =
          "nil value (".toList ++ fe.actualTag ++ "=".toList ++ fe.param ++ ")".toList) ∧
      (∀ v, fe.structFieldName = [] → fe.valueStr = some v →
        describeFieldError fe =
          fe.typeStr ++ " ".toList ++ v ++ " (".toList ++ fe.actualTag ++ "=".toList
            ++ fe.param ++ ")".toList) ∧
      (handleValidatorError (EngineError.invalid errs) =
        "validation failed: ".toList ++ joinCommaSp (errs.map describeFieldError)) ∧
      (handleValidatorError (EngineError.other msg) =
        "unexpected validation error: ".toList ++ msg) ∧
      (engineV varb tag = some err →
        ValidateWithTag engineV varb tag = some (handleValidatorError err)) ∧
      (validateInputStruct s = none → engineS s = some err →
        ValidateStruct engineS s = some (handleValidatorError err)) := by
  intro fe errs msg engineS engineV s varb tag err
  refine ⟨?_, ?_, ?_, rfl, rfl, ?_, ?_⟩
  · intro h
    simp [describeFieldError, h]
  · intro h hv
    simp [describeFieldError, h, hv]
  · intro v h hv
    simp [describeFieldError, h, hv]
  · intro h
    rw [ValidateWithTag, h]
  · intro h1 h2
    rw [ValidateStruct, h1, h2]

/-- Witness for C6: a named-field failure formats as its struct path with
tag and parameter, and `ValidateWithTag` surfaces a formatted unexpected
engine error. -/
theorem errorFormatting_spec_witness :
    describeFieldError
        ⟨"TestStruct.Field1".toList, "Field1".toList, "required".toList, [], none, []⟩ =
      "TestStruct.Field1".toList ++ " (".toList ++ "required".toList ++ "=".toList ++ []
        ++ ")".toList ∧
    ValidateWithTag (fun _ _ => some (EngineError.other "boom".toList)) GoValue.nonPtrValue
        [] = some (handleValidatorError (EngineError.other "boom".toList)) := by
  have h := errorFormatting_spec
    ⟨"TestStruct.Field1".toList, "Field1".toList, "required".toList, [], none, []⟩
    [] "boom".toList (fun _ => none) (fun _ _ => some (EngineError.other "boom".toList))
    GoValue.nonPtrValue GoValue.nonPtrValue [] (EngineError.other "boom".toList)
  exact ⟨h.1 (by decide), h.2.2.2.2.2.1 rfl⟩

/-- C7: `ValidateStruct` on the nil interface fails with exactly
`input is nil`, and on a typed nil pointer with exactly
`input is a nil pointer`; both hold for every engine, so the rule engine is
never consulted on these inputs. -/
theorem validateStruct_nil_guard :
    ∀ engine : GoValue → Option EngineError,
      ValidateStruct engine GoValue.nilInterface = some "input is nil".toList ∧
      ValidateStruct engine GoValue.typedNilPtr = some "input is a nil pointer".toList := by
  intro engine
  exact ⟨rfl, rfl⟩

/-- C8: registration with an empty tag or an absent predicate returns a
non-nil error, and the result is always the rule engine's own result,
unmodified. -/
theorem registerValidation_errors (tag : Str) (fnPresent : Bool)
    (h : tag = [] ∨ fnPresent = false) :
    RegisterValidation tag fnPresent = engineRegisterValidation tag fnPresent ∧
    (RegisterValidation tag fnPresent).isSome = true := by
  refine ⟨rfl, ?_⟩
  rcases h with h | h
  · subst h
    rfl
  · subst h
    unfold RegisterValidation engineRegisterValidation
    by_cases ht : tag = [] <;> simp [ht]

/-- Witness for C8: the empty tag and the absent predicate both yield
errors. -/
theorem registerValidation_errors_witness :
    (RegisterValidation [] true).isSome = true ∧
    (RegisterValidation "tag".toList false).isSome = true :=
  ⟨(registerValidation_errors [] true (Or.inl rfl)).2,
   (registerValidation_errors "tag".toList false (Or.inr rfl)).2⟩

/-- C10: `ValidateWithTag` has no nil-input guard: for every engine and
tag, validating the nil interface value never yields the `input is nil` or
`input is a nil pointer` messages (its only outputs are `none` or messages
with the two formatting prefixes). -/
theorem validateWithTag_no_nil_guard :
    ∀ (engine : GoValue → Str → Option EngineError) (tag : Str),
      ValidateWithTag engine GoValue.nilInterface tag ≠ some "input is nil".toList ∧
      ValidateWithTag engine GoValue.nilInterface tag ≠ some "input is a nil pointer".toList := by
  intro engine tag
  cases h : engine GoValue.nilInterface tag with
  | none =>
    rw [ValidateWithTag, h]
    exact ⟨by simp, by simp⟩
  | some err =>
    rw [ValidateWithTag, h]
    obtain ⟨c, t, he, hc⟩ := handleValidatorError_head err
    have hgoal : ∀ target : Str, (c :: t : Str) ≠ target →
        some (handleValidatorError err) ≠ some target := by
      intro target hne hcontra
      rw [Option.some.injEq, he] at hcontra
      exact hne hcontra
    refine ⟨hgoal _ ?_, hgoal _ ?_⟩ <;>
    · intro hcontra
      rcases hc with hc | hc <;> subst hc <;>
        · injection hcontra with h1 h2
          exact absurd h1 (by decide)
